import Mathlib

/-!
Verification development for the survey-code generation and
authorization-resolution subsystem of a respondent-driven-sampling survey
platform.  The repository ships only the test suites for this subsystem
(`survey.controller.test.ts`, `authTokenHandler.test.ts`); the controller,
token handler and middleware bodies themselves are absent, so every
operation below is modelled from the specification, with the tests pinning
concrete messages, field names and call shapes.
-/

namespace RDS

/-! ## Data model -/

/-- A survey record: unique 8-character code, optional parent code (stored by
value), ordered list of child codes, a location reference, a creator
reference and a creation timestamp. -/
structure Survey where
  surveyCode : String
  parentSurveyCode : Option String
  childSurveyCodes : List String
  locationObjectId : Nat
  createdBy : String
  createdAt : Nat
  deriving DecidableEq, Repr

/-- A pre-reserved seed code record; a disjoint pool of codes that generated
codes must never collide with. -/
structure Seed where
  code : String
  deriving DecidableEq, Repr

/-- The persisted state the code generator checks uniqueness against:
the Survey store and the Seed store. -/
structure SurveyDB where
  surveys : List Survey
  seeds : List Seed
  deriving DecidableEq, Repr

/-- Named, stable error values of the database layer
(`errors.SURVEY_CODE_GENERATION_ERROR` in the source tests). -/
inductive DBError where
  | SURVEY_CODE_GENERATION_ERROR
  deriving DecidableEq, Repr

/-! ## Code rendering

`generateCode` draws 4 uniformly random bytes and renders them as 8
uppercase hexadecimal characters.  Randomness is modelled as an explicit
stream `rand : Nat → Nat` of 32-bit draws consumed one per attempt. -/

/-- Uppercase hexadecimal digit for a value below 16 (0-9 then A-F). -/
def hexDigit (n : Nat) : Char :=
  if n < 10 then Char.ofNat (48 + n) else Char.ofNat (55 + n)

/-- Modelled from the spec: `generateCode()` renders a 32-bit random draw as
8 uppercase hexadecimal characters (4 random bytes in hex). -/
def toHex8 (v : Nat) : String :=
  String.mk ((List.range 8).map (fun k => hexDigit (v % 4294967296 / 16 ^ (7 - k) % 16)))

/-- One character of the accepted-code alphabet: `[A-F0-9]`. -/
def isHexUpper (c : Char) : Bool :=
  (48 ≤ c.toNat && c.toNat ≤ 57) || (65 ≤ c.toNat && c.toNat ≤ 70)

/-- The regular expression `^[A-F0-9]{8}$` as a Boolean predicate. -/
def isHex8 (s : String) : Bool :=
  s.data.length == 8 && s.data.all isHexUpper

/-! ## Uniqueness checks -/

/-- Some Survey's own `surveyCode` equals the candidate. -/
def surveyCodeTaken (db : SurveyDB) (c : String) : Bool :=
  db.surveys.any (fun s => s.surveyCode == c)

/-- Some Survey's `childSurveyCodes` list contains the candidate. -/
def childCodeTaken (db : SurveyDB) (c : String) : Bool :=
  db.surveys.any (fun s => s.childSurveyCodes.contains c)

/-- Some Survey's `parentSurveyCode` equals the candidate. -/
def parentCodeTaken (db : SurveyDB) (c : String) : Bool :=
  db.surveys.any (fun s => s.parentSurveyCode == some c)

/-- Some Seed record matches the candidate. -/
def seedCodeTaken (db : SurveyDB) (c : String) : Bool :=
  db.seeds.any (fun s => s.code == c)

/-- The four uniqueness checks, identified for tracing the order in which
they are executed within one attempt. -/
inductive CheckKind where
  | surveyCode
  | childCodes
  | parentCode
  | seed
  deriving DecidableEq, Repr

/-- Modelled from the spec: within one attempt the candidate is checked
sequentially against (a) Survey.surveyCode, (b) Survey.childSurveyCodes,
(c) Survey.parentSurveyCode, (d) Seed, stopping at the first match.
Returns whether a match was found together with the ordered trace of
checks actually executed. -/
def checkCandidate (db : SurveyDB) (c : String) : Bool × List CheckKind :=
  if surveyCodeTaken db c then (true, [.surveyCode])
  else if childCodeTaken db c then (true, [.surveyCode, .childCodes])
  else if parentCodeTaken db c then (true, [.surveyCode, .childCodes, .parentCode])
  else if seedCodeTaken db c then (true, [.surveyCode, .childCodes, .parentCode, .seed])
  else (false, [.surveyCode, .childCodes, .parentCode, .seed])

/-! ## Retry loops -/

/-- Modelled from the spec: the retry loop of `generateUniqueSurveyCode`.
`i` indexes the next random draw, the fuel is the remaining attempt budget;
the second component records every candidate tried. -/
def genCodeLoop (db : SurveyDB) (rand : Nat → Nat) :
    Nat → Nat → Except DBError String × List String
  | _, 0 => (.error .SURVEY_CODE_GENERATION_ERROR, [])
  | i, fuel + 1 =>
    let c := toHex8 (rand i)
    if (checkCandidate db c).1 then
      let r := genCodeLoop db rand (i + 1) fuel
      (r.1, c :: r.2)
    else
      (.ok c, [c])

/-- Modelled from the spec: `generateUniqueSurveyCode()` — up to 3 total
attempts, then fail with `SURVEY_CODE_GENERATION_ERROR`. -/
def generateUniqueSurveyCode (db : SurveyDB) (rand : Nat → Nat) :
    Except DBError String :=
  (genCodeLoop db rand 0 3).1

/-- The candidates tried by one run of `generateUniqueSurveyCode`. -/
def surveyCodeAttempts (db : SurveyDB) (rand : Nat → Nat) : List String :=
  (genCodeLoop db rand 0 3).2

/-- Modelled from the spec: generation of one child code — the single-code
algorithm plus the in-batch distinctness check against the codes `acc`
already accepted in the same batch.  On success returns the accepted code
and the index of the next unused random draw. -/
def genChildLoop (db : SurveyDB) (rand : Nat → Nat) (acc : List String) :
    Nat → Nat → Except DBError (String × Nat) × List String
  | _, 0 => (.error .SURVEY_CODE_GENERATION_ERROR, [])
  | i, fuel + 1 =>
    let c := toHex8 (rand i)
    if (checkCandidate db c).1 || acc.contains c then
      let r := genChildLoop db rand acc (i + 1) fuel
      (r.1, c :: r.2)
    else
      (.ok (c, i + 1), [c])

/-- Modelled from the spec: the batch loop of
`generateUniqueChildSurveyCodes` — each code gets its own 3-attempt budget;
exhausting the budget for any one code fails the whole batch.  The second
component records every candidate tried. -/
def genChildren (db : SurveyDB) (rand : Nat → Nat) :
    List String → Nat → Nat → Except DBError (List String) × List String
  | acc, _, 0 => (.ok acc.reverse, [])
  | acc, i, n + 1 =>
    match genChildLoop db rand acc i 3 with
    | (.error e, tr) => (.error e, tr)
    | (.ok (c, i'), tr) =>
      let r := genChildren db rand (c :: acc) i' n
      (r.1, tr ++ r.2)

/-- Modelled from the spec: `generateUniqueChildSurveyCodes(n = 3)`. -/
def generateUniqueChildSurveyCodes (db : SurveyDB) (rand : Nat → Nat)
    (n : Nat := 3) : Except DBError (List String) :=
  (genChildren db rand [] 0 n).1

/-- The candidates tried by one run of `generateUniqueChildSurveyCodes`
at the default batch size. -/
def childCodeAttempts (db : SurveyDB) (rand : Nat → Nat) : List String :=
  (genChildren db rand [] 0 3).2

/-! ## Parent-code resolution -/

/-- Modelled from the spec: `getParentSurveySurveyCodeUsingSurveyCode` —
`Survey.findOne({ childSurveyCodes: { $in: [childCode] } }).select({
surveyCode: 1 })`, returning the owning survey's code or null. -/
def getParentSurveySurveyCodeUsingSurveyCode (db : SurveyDB)
    (childCode : String) : Option String :=
  (db.surveys.find? (fun s => s.childSurveyCodes.contains childCode)).map
    (fun s => s.surveyCode)

/-! ## Concrete stores used to witness the hypothesis-bearing theorems -/

/-- An empty pair of stores: no survey and no seed record. -/
def emptyDB : SurveyDB := ⟨[], []⟩

/-- A store holding the one survey whose code is the rendering of the
constant draw 0, so that every attempt of a constant-zero stream collides. -/
def clashDB : SurveyDB :=
  ⟨[⟨"00000000", none, [], 0, "u1", 0⟩], []⟩

/-- A store exercising all four uniqueness checks and parent resolution:
one parent survey owning two child codes, plus a seed record. -/
def sampleDB : SurveyDB :=
  ⟨[⟨"AAAAAAAA", some "BBBBBBBB", ["CCCCCCCC", "DDDDDDDD"], 7, "u1", 5⟩],
   [⟨"EEEEEEEE"⟩]⟩

/-! ## Token service

`generateAuthToken` and `verifyAuthToken` wrap a JWT library.  The token
wire format is modelled concretely: a token is a string of three
dot-separated segments (header, payload, signature).  Segment contents are
hex-rendered with `x` separators — an injective stand-in for base64url —
and the signature is modelled as an injective function of the signing
secret and the signed input, the shallow analogue of an ideal MAC. -/

/-- Decoded token payload: the subject identifier under the field name
`userObjectId`, plus issued-at and expiry times in seconds. -/
structure JwtPayload where
  userObjectId : String
  iat : Nat
  exp : Nat
  deriving DecidableEq, Repr

/-- Verification failures: malformed credential, signature mismatch, or
expiry — all terminal, non-retryable for the request. -/
inductive VerifyError where
  | malformed
  | invalidSignature
  | expired
  deriving DecidableEq, Repr

/-- Numeric value of an uppercase hexadecimal digit character. -/
def hexVal (c : Char) : Nat :=
  if c.toNat ≤ 57 then c.toNat - 48 else c.toNat - 55

/-- Fixed-width rendering of a value below 16^6 as 6 hex digits. -/
def hexPad6 (n : Nat) : List Char :=
  [hexDigit (n / 1048576 % 16), hexDigit (n / 65536 % 16),
   hexDigit (n / 4096 % 16), hexDigit (n / 256 % 16),
   hexDigit (n / 16 % 16), hexDigit (n % 16)]

/-- Variable-width rendering of a natural number as hex digits, most
significant digit first; the extra argument bounds the recursion depth
(structurally, so that the definition computes), and `n + 1` levels always
suffice. -/
def natHexCharsAux : Nat → Nat → List Char
  | 0, _ => []
  | fuel + 1, n =>
    if n < 16 then [hexDigit n]
    else natHexCharsAux fuel (n / 16) ++ [hexDigit (n % 16)]

/-- Variable-width rendering of a natural number as hex digits,
most significant digit first. -/
def natHexChars (n : Nat) : List Char := natHexCharsAux (n + 1) n

/-- Fold hex digits back into the value they render. -/
def hexFold (l : List Char) : Nat :=
  l.foldl (fun a c => 16 * a + hexVal c) 0

/-- Decode a nonempty hex-digit run into a natural number. -/
def natUnhex (l : List Char) : Option Nat :=
  if l.isEmpty then none else some (hexFold l)

/-- Hex-render a character sequence, 6 fixed-width digits per character. -/
def strHexChars : List Char → List Char
  | [] => []
  | c :: cs => hexPad6 c.toNat ++ strHexChars cs

/-- Decode a hex-rendered character sequence (6 digits per character). -/
def strUnhexChars : List Char → Option (List Char)
  | [] => some []
  | c1 :: c2 :: c3 :: c4 :: c5 :: c6 :: rest =>
    let v := hexFold [c1, c2, c3, c4, c5, c6]
    if _h : v.isValidChar then
      match strUnhexChars rest with
      | some cs => some (Char.ofNat v :: cs)
      | none => none
    else none
  | _ => none

/-- The constant header segment of every issued token. -/
def headerChars : List Char := strHexChars "JWT".data

/-- Wire encoding of the payload: hex-rendered subject, issued-at and
expiry, separated by `x`. -/
def encPayload (p : JwtPayload) : List Char :=
  strHexChars p.userObjectId.data ++
    'x' :: (natHexChars p.iat ++ 'x' :: natHexChars p.exp)

/-- Decode a payload segment back into a `JwtPayload`. -/
def parsePayload (l : List Char) : Option JwtPayload :=
  match l.dropWhile (fun c => c != 'x') with
  | _ :: r1 =>
    match r1.dropWhile (fun c => c != 'x') with
    | _ :: r2 =>
      match strUnhexChars (l.takeWhile (fun c => c != 'x')),
          natUnhex (r1.takeWhile (fun c => c != 'x')), natUnhex r2 with
      | some uid, some iat, some ex => some ⟨String.mk uid, iat, ex⟩
      | _, _, _ => none
    | [] => none
  | [] => none

/-- The signature segment: an injective function of the process-wide
signing secret and the signed input (the model of an ideal MAC). -/
def sigChars (secret : String) (input : List Char) : List Char :=
  strHexChars secret.data ++ 'x' :: strHexChars input

/-- The full wire form of a token signed over header and payload. -/
def tokenChars (secret : String) (p : JwtPayload) : List Char :=
  headerChars ++ '.' :: encPayload p ++
    '.' :: sigChars secret (headerChars ++ '.' :: encPayload p)

/-- Sign an arbitrary payload with a given secret. -/
def signToken (secret : String) (p : JwtPayload) : String :=
  String.mk (tokenChars secret p)

/-- Modelled from the spec: `generateAuthToken(userId)` — a signed
credential embedding the subject identifier (under `userObjectId`), the
issued-at time, and a fixed 12-hour (43200-second) expiry, signed with the
process-wide secret. -/
def generateAuthToken (secret : String) (now : Nat)
    (userObjectId : String) : String :=
  signToken secret ⟨userObjectId, now, now + 43200⟩

/-- Split a character sequence at every occurrence of a separator. -/
def splitOnChar (sep : Char) : List Char → List (List Char)
  | [] => [[]]
  | c :: rest =>
    match splitOnChar sep rest with
    | [] => [[]]
    | s :: ss => if c = sep then [] :: s :: ss else (c :: s) :: ss

/-- Modelled from the spec: `verifyAuthToken(token)` — the embedded
payload if the token is well formed, the signature matches the
process-wide secret, and the token has not expired; otherwise a
verification error. -/
def verifyAuthToken (secret : String) (now : Nat) (token : String) :
    Except VerifyError JwtPayload :=
  match splitOnChar '.' token.data with
  | [h, pl, sg] =>
    if h = headerChars then
      match parsePayload pl with
      | some payload =>
        if sg = sigChars secret (h ++ '.' :: pl) then
          if now < payload.exp then .ok payload
          else .error .expired
        else .error .invalidSignature
      | none => .error .malformed
    else .error .malformed
  | _ => .error .malformed

/-- A token whose wire structure alone already fails verification: not
three dot-separated segments, an alien header, or an undecodable
payload. -/
def malformedToken (t : String) : Bool :=
  match splitOnChar '.' t.data with
  | [h, pl, _sg] => !(h == headerChars) || (parsePayload pl).isNone
  | _ => true

/-! ## Authorization resolver

The auth middleware composes token verification, a user lookup, the
approval gate and the location-escalation lookup into one per-request
authorization context.  A middleware outcome records the client response
sent (if any), the context attached to the request (if any), and whether
the next stage was invoked. -/

/-- User roles. -/
inductive Role where
  | VOLUNTEER
  | MANAGER
  | ADMIN
  deriving DecidableEq, Repr

/-- Account approval state gating API access. -/
inductive ApprovalStatus where
  | PENDING
  | APPROVED
  | REJECTED
  deriving DecidableEq, Repr

/-- One entry of a user's permission set. -/
structure Permission where
  action : String
  subject : String
  condition : Option String
  deriving DecidableEq, Repr

/-- A stored user account. -/
structure User where
  id : String
  role : Role
  approvalStatus : ApprovalStatus
  locationObjectId : Nat
  permissions : List Permission
  deriving DecidableEq, Repr

/-- The derived, per-request authorization bundle. -/
structure AuthorizationContext where
  userId : String
  role : Role
  approvalStatus : ApprovalStatus
  permissions : List Permission
  locationObjectId : Nat
  deriving DecidableEq, Repr

/-- The slice of an incoming request the middleware reads. -/
structure Request where
  authorization : Option String
  deriving DecidableEq, Repr

/-- What one middleware invocation did: the response sent to the client
(status and message), the context attached to the request, and whether
control passed to the next stage. -/
structure AuthResult where
  response : Option (Nat × String)
  attached : Option AuthorizationContext
  nextCalled : Bool
  deriving DecidableEq, Repr

/-- The process environment the middleware runs in: signing secret, clock,
user store and survey store. -/
structure AuthEnv where
  secret : String
  now : Nat
  users : List User
  surveys : List Survey
  deriving DecidableEq, Repr

/-- Modelled from the spec: the credential is accepted with or without a
Bearer prefix — strip the prefix when present. -/
def stripBearer (s : String) : String :=
  if s.data.take 7 = "Bearer ".data then String.mk (s.data.drop 7) else s

/-- The user store's `findById`. -/
def findById (users : List User) (id : String) : Option User :=
  users.find? (fun u => u.id == id)

/-- Modelled from the spec: the most recently created Survey associated
with the user (creator reference, descending creation time, first
result). -/
def latestSurveyFor (surveys : List Survey) (uid : String) : Option Survey :=
  (surveys.filter (fun s => s.createdBy == uid)).foldl
    (fun acc s =>
      match acc with
      | none => some s
      | some t => if t.createdAt < s.createdAt then some s else acc) none

/-- Build the authorization context for a user and an effective location. -/
def mkContext (u : User) (loc : Nat) : AuthorizationContext :=
  ⟨u.id, u.role, u.approvalStatus, u.permissions, loc⟩

/-- Modelled from the spec: the auth middleware — extract the credential,
verify it, load the subject, gate on approval, escalate the location to
that of the user's most recent survey, then attach the context and pass
control onward.  Every failure is converted to a terminal client
response. -/
def auth (env : AuthEnv) (req : Request) : AuthResult :=
  match req.authorization with
  | none => ⟨some (401, "Access denied. No token provided"), none, false⟩
  | some header =>
    match verifyAuthToken env.secret env.now (stripBearer header) with
    | .error _ => ⟨some (401, "Invalid Token. Access denied."), none, false⟩
    | .ok payload =>
      match findById env.users payload.userObjectId with
      | none =>
        ⟨some (400, "User account not found. Please contact your admin."),
         none, false⟩
      | some user =>
        match user.approvalStatus with
        | .PENDING =>
          ⟨some (403,
            "User account not approved yet. Please contact your admin."),
           none, false⟩
        | .REJECTED =>
          ⟨some (403,
            "User account not approved yet. Please contact your admin."),
           none, false⟩
        | .APPROVED =>
          let loc :=
            match latestSurveyFor env.surveys user.id with
            | some s => s.locationObjectId
            | none => user.locationObjectId
          ⟨none, some (mkContext user loc), true⟩

/-- The failure class of requests with an absent or unverifiable
credential (the 401 class). -/
def tokenRejected (env : AuthEnv) (req : Request) : Prop :=
  req.authorization = none ∨
    ∃ hdr e, req.authorization = some hdr ∧
      verifyAuthToken env.secret env.now (stripBearer hdr) = .error e

/-- The failure class of valid credentials whose subject account is gone
(the 400 class). -/
def userMissing (env : AuthEnv) (req : Request) : Prop :=
  ∃ hdr payload, req.authorization = some hdr ∧
    verifyAuthToken env.secret env.now (stripBearer hdr) = .ok payload ∧
    findById env.users payload.userObjectId = none

/-- The requests whose valid credential resolves to a stored user in the
given approval state. -/
def tokenResolvesTo (env : AuthEnv) (req : Request)
    (st : ApprovalStatus) : Prop :=
  ∃ hdr payload u, req.authorization = some hdr ∧
    verifyAuthToken env.secret env.now (stripBearer hdr) = .ok payload ∧
    findById env.users payload.userObjectId = some u ∧
    u.approvalStatus = st

/-! ## Concrete middleware environments used by the witnesses -/

/-- An approved user account. -/
def alice : User := ⟨"alice", .VOLUNTEER, .APPROVED, 1, []⟩

/-- A pending user account. -/
def paula : User := ⟨"paula", .VOLUNTEER, .PENDING, 1, []⟩

/-- A rejected user account. -/
def rita : User := ⟨"rita", .VOLUNTEER, .REJECTED, 1, []⟩

/-- A survey created by `alice` at a location distinct from her home. -/
def aliceSurvey : Survey := ⟨"AAAAAAAA", none, [], 9, "alice", 10⟩

/-- An environment whose survey store holds one survey by `alice`. -/
def wEnv : AuthEnv := ⟨"k", 0, [alice, paula, rita], [aliceSurvey]⟩

/-- The same environment with an empty survey store. -/
def wEnvNoSurvey : AuthEnv := ⟨"k", 0, [alice, paula, rita], []⟩

/-- A request carrying a fresh token for `alice`. -/
def wReq : Request := ⟨some (generateAuthToken "k" 0 "alice")⟩

/-- The payload embedded in `wReq`'s token. -/
def wPayload : JwtPayload := ⟨"alice", 0, 43200⟩

/-! ## Lemmas about code rendering -/

theorem isHexUpper_hexDigit {n : Nat} (h : n < 16) :
    isHexUpper (hexDigit n) = true := by
  interval_cases n <;> decide

theorem toHex8_isHex8 (v : Nat) : isHex8 (toHex8 v) = true := by
  have hlen : (toHex8 v).data.length = 8 := by
    simp [toHex8, String.mk]
  have hall : (toHex8 v).data.all isHexUpper = true := by
    simp only [toHex8, String.mk, List.all_eq_true]
    intro c hc
    simp only [List.mem_map, List.mem_range] at hc
    obtain ⟨k, _, rfl⟩ := hc
    exact isHexUpper_hexDigit (Nat.mod_lt _ (by norm_num))
  simp [isHex8, hlen, hall]

/-! ## Lemmas about the retry loops -/

theorem genCodeLoop_ok (db : SurveyDB) (rand : Nat → Nat) :
    ∀ fuel i c tr, genCodeLoop db rand i fuel = (.ok c, tr) →
      ∃ j, c = toHex8 (rand j) ∧ (checkCandidate db c).1 = false := by
  intro fuel
  induction fuel with
  | zero => intro i c tr h; simp [genCodeLoop] at h
  | succ n ih =>
    intro i c tr h
    by_cases hc : (checkCandidate db (toHex8 (rand i))).1
    · simp only [genCodeLoop, hc, if_true, Prod.mk.injEq] at h
      exact ih (i + 1) c _ (Prod.ext h.1 rfl)
    · simp only [genCodeLoop, hc, if_false, Prod.mk.injEq,
        Except.ok.injEq] at h
      obtain ⟨rfl, -⟩ := h
      exact ⟨i, rfl, by simpa using hc⟩

theorem genChildLoop_ok (db : SurveyDB) (rand : Nat → Nat) (acc : List String) :
    ∀ fuel i c i' tr, genChildLoop db rand acc i fuel = (.ok (c, i'), tr) →
      (∃ j, c = toHex8 (rand j)) ∧ (checkCandidate db c).1 = false ∧
        c ∉ acc := by
  intro fuel
  induction fuel with
  | zero => intro i c i' tr h; simp [genChildLoop] at h
  | succ n ih =>
    intro i c i' tr h
    by_cases hc : ((checkCandidate db (toHex8 (rand i))).1 ||
        acc.contains (toHex8 (rand i)))
    · simp only [genChildLoop, hc, if_true, Prod.mk.injEq] at h
      exact ih (i + 1) c i' _ (Prod.ext h.1 rfl)
    · simp only [genChildLoop, hc, if_false, Prod.mk.injEq,
        Except.ok.injEq] at h
      obtain ⟨⟨rfl, rfl⟩, -⟩ := h
      simp only [Bool.or_eq_true, not_or] at hc
      refine ⟨⟨i, rfl⟩, by simpa using hc.1, ?_⟩
      have := hc.2
      simpa [List.contains, List.elem_iff] using this

theorem genChildren_ok (db : SurveyDB) (rand : Nat → Nat) :
    ∀ n acc i cs tr, genChildren db rand acc i n = (.ok cs, tr) →
      acc.Nodup →
      cs.Nodup ∧ cs.length = acc.length + n ∧
        (∀ c ∈ cs, c ∈ acc ∨ isHex8 c = true) := by
  intro n
  induction n with
  | zero =>
    intro acc i cs tr h hacc
    simp only [genChildren, Prod.mk.injEq, Except.ok.injEq] at h
    obtain ⟨rfl, -⟩ := h
    refine ⟨by simpa using hacc, by simp, ?_⟩
    intro c hc
    exact Or.inl (by simpa using hc)
  | succ n ih =>
    intro acc i cs tr h hacc
    rcases hloop : genChildLoop db rand acc i 3 with ⟨res, tr0⟩
    cases res with
    | error e =>
      simp only [genChildren, hloop, Prod.mk.injEq] at h
      exact absurd h.1 (by simp)
    | ok ci =>
      obtain ⟨c, i'⟩ := ci
      obtain ⟨⟨j, rfl⟩, -, hnot⟩ := genChildLoop_ok db rand acc 3 i _ i' tr0 hloop
      simp only [genChildren, hloop, Prod.mk.injEq] at h
      obtain ⟨hn, hlen, hmem⟩ := ih (toHex8 (rand j) :: acc) i' cs _
        (Prod.ext h.1 rfl) (by simp [hacc, hnot])
      refine ⟨hn, by simp at hlen; omega, ?_⟩
      intro c hc
      rcases hmem c hc with h' | h'
      · rcases List.mem_cons.mp h' with rfl | h''
        · exact Or.inr (toHex8_isHex8 _)
        · exact Or.inl h''
      · exact Or.inr h'

theorem checkCandidate_false_iff (db : SurveyDB) (c : String) :
    (checkCandidate db c).1 = false ↔
      surveyCodeTaken db c = false ∧ childCodeTaken db c = false ∧
        parentCodeTaken db c = false ∧ seedCodeTaken db c = false := by
  by_cases h1 : surveyCodeTaken db c <;> by_cases h2 : childCodeTaken db c <;>
    by_cases h3 : parentCodeTaken db c <;> by_cases h4 : seedCodeTaken db c <;>
    simp [checkCandidate, h1, h2, h3, h4]

theorem checkCandidate_trace_of_false (db : SurveyDB) (c : String)
    (h : (checkCandidate db c).1 = false) :
    (checkCandidate db c).2 =
      [.surveyCode, .childCodes, .parentCode, .seed] := by
  obtain ⟨h1, h2, h3, h4⟩ := (checkCandidate_false_iff db c).mp h
  simp [checkCandidate, h1, h2, h3, h4]

/-! ## Claim theorems: code generation -/

/-- C1: if every uniqueness check reports a match on every attempt, both
`generateUniqueSurveyCode` and `generateUniqueChildSurveyCodes` fail with
the named, stable error value `SURVEY_CODE_GENERATION_ERROR` after exactly
3 generation attempts per code — not more, not fewer. -/
theorem generation_exhaustion (db : SurveyDB) (rand : Nat → Nat)
    (h : ∀ i, (checkCandidate db (toHex8 (rand i))).1 = true) :
    generateUniqueSurveyCode db rand =
        .error .SURVEY_CODE_GENERATION_ERROR ∧
      (surveyCodeAttempts db rand).length = 3 ∧
      generateUniqueChildSurveyCodes db rand =
        .error .SURVEY_CODE_GENERATION_ERROR ∧
      (childCodeAttempts db rand).length = 3 := by
  have e1 : genCodeLoop db rand 0 3 =
      (.error .SURVEY_CODE_GENERATION_ERROR,
       [toHex8 (rand 0), toHex8 (rand 1), toHex8 (rand 2)]) := by
    simp [genCodeLoop, h 0, h 1, h 2]
  have e2 : genChildLoop db rand [] 0 3 =
      (.error .SURVEY_CODE_GENERATION_ERROR,
       [toHex8 (rand 0), toHex8 (rand 1), toHex8 (rand 2)]) := by
    simp [genChildLoop, h 0, h 1, h 2]
  have e3 : genChildren db rand [] 0 3 =
      (.error .SURVEY_CODE_GENERATION_ERROR,
       [toHex8 (rand 0), toHex8 (rand 1), toHex8 (rand 2)]) := by
    simp [genChildren, e2]
  exact ⟨by simp [generateUniqueSurveyCode, e1],
    by simp [surveyCodeAttempts, e1],
    by simp [generateUniqueChildSurveyCodes, e3],
    by simp [childCodeAttempts, e3]⟩

theorem generation_exhaustion_witness :
    generateUniqueSurveyCode clashDB (fun _ => 0) =
        .error .SURVEY_CODE_GENERATION_ERROR ∧
      (surveyCodeAttempts clashDB (fun _ => 0)).length = 3 ∧
      generateUniqueChildSurveyCodes clashDB (fun _ => 0) =
        .error .SURVEY_CODE_GENERATION_ERROR ∧
      (childCodeAttempts clashDB (fun _ => 0)).length = 3 :=
  generation_exhaustion clashDB (fun _ => 0)
    (fun _ => by show (checkCandidate clashDB (toHex8 0)).1 = true; decide)

/-- C4: within an attempt of `generateUniqueSurveyCode` the candidate is
checked in the fixed order surveyCode, childSurveyCodes, parentSurveyCode,
Seed (the execution trace stops at the first match), and a candidate is
accepted if and only if none of the four checks finds a match; every code
the generator returns passed all four checks in that order. -/
theorem check_order_and_acceptance (db : SurveyDB) (rand : Nat → Nat)
    (c : String) :
    ((checkCandidate db c).1 = false ↔
      surveyCodeTaken db c = false ∧ childCodeTaken db c = false ∧
        parentCodeTaken db c = false ∧ seedCodeTaken db c = false) ∧
    (surveyCodeTaken db c = true →
      (checkCandidate db c).2 = [.surveyCode]) ∧
    (surveyCodeTaken db c = false → childCodeTaken db c = true →
      (checkCandidate db c).2 = [.surveyCode, .childCodes]) ∧
    (surveyCodeTaken db c = false → childCodeTaken db c = false →
      parentCodeTaken db c = true →
      (checkCandidate db c).2 = [.surveyCode, .childCodes, .parentCode]) ∧
    (surveyCodeTaken db c = false → childCodeTaken db c = false →
      parentCodeTaken db c = false →
      (checkCandidate db c).2 =
        [.surveyCode, .childCodes, .parentCode, .seed]) ∧
    (∀ x, generateUniqueSurveyCode db rand = .ok x →
      (checkCandidate db x).1 = false ∧
      (checkCandidate db x).2 =
        [.surveyCode, .childCodes, .parentCode, .seed]) := by
  refine ⟨checkCandidate_false_iff db c, ?_, ?_, ?_, ?_, ?_⟩
  · intro h1; simp [checkCandidate, h1]
  · intro h1 h2; simp [checkCandidate, h1, h2]
  · intro h1 h2 h3; simp [checkCandidate, h1, h2, h3]
  · intro h1 h2 h3
    by_cases h4 : seedCodeTaken db c <;> simp [checkCandidate, h1, h2, h3, h4]
  · intro x hx
    simp only [generateUniqueSurveyCode] at hx
    obtain ⟨j, rfl, hchk⟩ := genCodeLoop_ok db rand 3 0 x _ (Prod.ext hx rfl)
    exact ⟨hchk, checkCandidate_trace_of_false db _ hchk⟩

theorem check_order_and_acceptance_witness :
    (checkCandidate sampleDB "AAAAAAAA").2 = [CheckKind.surveyCode] ∧
    (checkCandidate sampleDB "CCCCCCCC").2 =
      [CheckKind.surveyCode, CheckKind.childCodes] ∧
    (checkCandidate sampleDB "BBBBBBBB").2 =
      [CheckKind.surveyCode, CheckKind.childCodes, CheckKind.parentCode] ∧
    (checkCandidate sampleDB "EEEEEEEE").2 =
      [CheckKind.surveyCode, CheckKind.childCodes, CheckKind.parentCode,
       CheckKind.seed] ∧
    (checkCandidate sampleDB "12345678").1 = false :=
  ⟨(check_order_and_acceptance sampleDB (fun _ => 0) "AAAAAAAA").2.1
      (by decide),
   (check_order_and_acceptance sampleDB (fun _ => 0) "CCCCCCCC").2.2.1
      (by decide) (by decide),
   (check_order_and_acceptance sampleDB (fun _ => 0) "BBBBBBBB").2.2.2.1
      (by decide) (by decide) (by decide),
   (check_order_and_acceptance sampleDB (fun _ => 0) "EEEEEEEE").2.2.2.2.1
      (by decide) (by decide) (by decide),
   (check_order_and_acceptance sampleDB (fun _ => 0) "12345678").1.mpr
      (by decide)⟩

/-- C5: every code accepted by `generateUniqueSurveyCode` or
`generateUniqueChildSurveyCodes` matches the pattern `[A-F0-9]` repeated 8
times, and the child generator at its default batch size returns exactly
3 pairwise-distinct codes. -/
theorem accepted_code_shape (db db' : SurveyDB) (rand rand' : Nat → Nat) :
    (∀ c, generateUniqueSurveyCode db rand = .ok c → isHex8 c = true) ∧
    (∀ cs, generateUniqueChildSurveyCodes db' rand' = .ok cs →
      cs.length = 3 ∧ cs.Nodup ∧ ∀ c ∈ cs, isHex8 c = true) := by
  constructor
  · intro c hc
    simp only [generateUniqueSurveyCode] at hc
    obtain ⟨j, rfl, -⟩ := genCodeLoop_ok db rand 3 0 c _ (Prod.ext hc rfl)
    exact toHex8_isHex8 _
  · intro cs hcs
    simp only [generateUniqueChildSurveyCodes] at hcs
    obtain ⟨hn, hlen, hmem⟩ :=
      genChildren_ok db' rand' 3 [] 0 cs _ (Prod.ext hcs rfl) (by simp)
    refine ⟨by simpa using hlen, hn, ?_⟩
    intro c hc
    rcases hmem c hc with h' | h'
    · simp at h'
    · exact h'

theorem accepted_code_shape_witness :
    isHex8 "00000000" = true ∧
    (["00000000", "00000001", "00000002"].length = 3 ∧
      ["00000000", "00000001", "00000002"].Nodup ∧
      ∀ c ∈ ["00000000", "00000001", "00000002"], isHex8 c = true) :=
  ⟨(accepted_code_shape emptyDB emptyDB id id).1 "00000000" rfl,
   (accepted_code_shape emptyDB emptyDB id id).2
      ["00000000", "00000001", "00000002"] rfl⟩

/-- C6: `getParentSurveySurveyCodeUsingSurveyCode childCode` returns the
surveyCode of the Survey whose childSurveyCodes list contains childCode
when such a survey exists, and returns a plain null result when no survey
references childCode. -/
theorem getParent_resolution (db : SurveyDB) (c : String) :
    (getParentSurveySurveyCodeUsingSurveyCode db c = none ↔
      ∀ s ∈ db.surveys, c ∉ s.childSurveyCodes) ∧
    (∀ r, getParentSurveySurveyCodeUsingSurveyCode db c = some r →
      ∃ s ∈ db.surveys, c ∈ s.childSurveyCodes ∧ s.surveyCode = r) ∧
    (∀ s ∈ db.surveys, c ∈ s.childSurveyCodes →
      (∀ t ∈ db.surveys, c ∈ t.childSurveyCodes → t = s) →
      getParentSurveySurveyCodeUsingSurveyCode db c = some s.surveyCode) := by
  refine ⟨?_, ?_, ?_⟩
  · simp [getParentSurveySurveyCodeUsingSurveyCode, List.find?_eq_none,
      List.contains, List.elem_iff]
  · intro r hr
    simp only [getParentSurveySurveyCodeUsingSurveyCode,
      Option.map_eq_some'] at hr
    obtain ⟨s, hs, rfl⟩ := hr
    have hmem := List.mem_of_find?_eq_some hs
    have hp := List.find?_some hs
    exact ⟨s, hmem, by simpa [List.contains, List.elem_iff] using hp, rfl⟩
  · intro s hs hc huniq
    rcases hfind : db.surveys.find?
        (fun t => t.childSurveyCodes.contains c) with _ | t
    · exfalso
      have := List.find?_eq_none.mp hfind s hs
      simp [List.contains, List.elem_iff] at this
      exact this hc
    · have hmem := List.mem_of_find?_eq_some hfind
      have hp := List.find?_some hfind
      have : t = s := huniq t hmem (by simpa [List.contains, List.elem_iff] using hp)
      subst this
      simp only [getParentSurveySurveyCodeUsingSurveyCode, hfind,
        Option.map_some']

theorem getParent_resolution_witness :
    getParentSurveySurveyCodeUsingSurveyCode sampleDB "CCCCCCCC" =
        some "AAAAAAAA" ∧
      getParentSurveySurveyCodeUsingSurveyCode sampleDB "ZZZZZZZZ" = none :=
  ⟨(getParent_resolution sampleDB "CCCCCCCC").2.2
      ⟨"AAAAAAAA", some "BBBBBBBB", ["CCCCCCCC", "DDDDDDDD"], 7, "u1", 5⟩
      (by decide) (by decide) (by decide),
   (getParent_resolution sampleDB "ZZZZZZZZ").1.mpr (by decide)⟩

/-! ## Lemmas about the token wire format -/

theorem hexVal_hexDigit {n : Nat} (h : n < 16) : hexVal (hexDigit n) = n := by
  interval_cases n <;> decide

theorem hexVal_hexDigit_mod (m : Nat) :
    hexVal (hexDigit (m % 16)) = m % 16 :=
  hexVal_hexDigit (Nat.mod_lt _ (by norm_num))

theorem hexFold_hexPad6 {n : Nat} (h : n < 16777216) :
    hexFold (hexPad6 n) = n := by
  simp only [hexFold, hexPad6, List.foldl, hexVal_hexDigit_mod]
  omega

theorem mem_hexPad6_hexUpper {n : Nat} {c : Char} (hc : c ∈ hexPad6 n) :
    isHexUpper c = true := by
  simp only [hexPad6, List.mem_cons, List.not_mem_nil, or_false] at hc
  rcases hc with rfl | rfl | rfl | rfl | rfl | rfl <;>
    exact isHexUpper_hexDigit (Nat.mod_lt _ (by norm_num))

theorem mem_natHexCharsAux_hexUpper :
    ∀ fuel n c, c ∈ natHexCharsAux fuel n → isHexUpper c = true := by
  intro fuel
  induction fuel with
  | zero => intro n c hc; simp [natHexCharsAux] at hc
  | succ f ih =>
    intro n c hc
    rw [natHexCharsAux] at hc
    by_cases h : n < 16
    · simp only [h, if_true, List.mem_singleton] at hc
      subst hc
      exact isHexUpper_hexDigit h
    · simp only [h, if_false, List.mem_append, List.mem_singleton] at hc
      rcases hc with hc | rfl
      · exact ih _ c hc
      · exact isHexUpper_hexDigit (Nat.mod_lt _ (by norm_num))

theorem mem_natHexChars_hexUpper {n : Nat} {c : Char}
    (hc : c ∈ natHexChars n) : isHexUpper c = true :=
  mem_natHexCharsAux_hexUpper _ _ _ hc

theorem natHexChars_ne_nil (n : Nat) : natHexChars n ≠ [] := by
  rw [natHexChars, natHexCharsAux]
  by_cases h : n < 16 <;> simp [h]

theorem foldl_natHexCharsAux : ∀ fuel n, n < fuel → ∀ init : Nat,
    (natHexCharsAux fuel n).foldl (fun a c => 16 * a + hexVal c) init =
      init * 16 ^ (natHexCharsAux fuel n).length + n := by
  intro fuel
  induction fuel with
  | zero => intro n h; omega
  | succ f ih =>
    intro n h init
    rw [natHexCharsAux]
    by_cases hn : n < 16
    · simp [hn, List.foldl, hexVal_hexDigit hn, Nat.mul_comm]
    · have hlt : n / 16 < f := by omega
      simp only [hn, if_false, List.foldl_append, List.foldl,
        List.length_append, List.length_singleton]
      rw [ih (n / 16) hlt init]
      have hm := hexVal_hexDigit_mod n
      rw [hm, pow_succ]
      have := Nat.div_add_mod n 16
      ring_nf
      omega

theorem natUnhex_natHexChars (n : Nat) : natUnhex (natHexChars n) = some n := by
  have h1 := natHexChars_ne_nil n
  have h2 := foldl_natHexCharsAux (n + 1) n (by omega) 0
  rw [natHexChars] at h1 ⊢
  simp only [natUnhex, hexFold, List.isEmpty_iff, h1, if_neg,
    not_false_iff, h2]
  simp

theorem mem_strHexChars_hexUpper {l : List Char} {c : Char}
    (hc : c ∈ strHexChars l) : isHexUpper c = true := by
  induction l with
  | nil => simp [strHexChars] at hc
  | cons d ds ih =>
    simp only [strHexChars, List.mem_append] at hc
    rcases hc with hc | hc
    · exact mem_hexPad6_hexUpper hc
    · exact ih hc

theorem char_toNat_lt (c : Char) : c.toNat < 16777216 := by
  rcases c.valid with h | ⟨-, h⟩ <;>
    exact lt_trans h (by norm_num)

theorem strUnhex_strHexChars (l : List Char) :
    strUnhexChars (strHexChars l) = some l := by
  induction l with
  | nil => rfl
  | cons c cs ih =>
    have hv : hexFold (hexPad6 c.toNat) = c.toNat :=
      hexFold_hexPad6 (char_toNat_lt c)
    have e : strHexChars (c :: cs) =
        hexDigit (c.toNat / 1048576 % 16) :: hexDigit (c.toNat / 65536 % 16) ::
        hexDigit (c.toNat / 4096 % 16) :: hexDigit (c.toNat / 256 % 16) ::
        hexDigit (c.toNat / 16 % 16) :: hexDigit (c.toNat % 16) ::
        strHexChars cs := rfl
    rw [e]
    simp only [strUnhexChars]
    rw [show hexFold [hexDigit (c.toNat / 1048576 % 16),
      hexDigit (c.toNat / 65536 % 16), hexDigit (c.toNat / 4096 % 16),
      hexDigit (c.toNat / 256 % 16), hexDigit (c.toNat / 16 % 16),
      hexDigit (c.toNat % 16)] = c.toNat from hv]
    have hvalid : c.toNat.isValidChar := c.valid
    rw [dif_pos hvalid, ih, Char.ofNat_toNat]

theorem strHexChars_injective {l1 l2 : List Char}
    (h : strHexChars l1 = strHexChars l2) : l1 = l2 := by
  have e := congrArg strUnhexChars h
  rw [strUnhex_strHexChars, strUnhex_strHexChars] at e
  exact Option.some.inj e

theorem hexUpper_ne_sep {c : Char} (h : isHexUpper c = true) :
    (c != 'x') = true := by
  simp only [bne_iff_ne, ne_eq]
  rintro rfl
  exact absurd h (by decide)

theorem hexUpper_ne_dot {c : Char} (h : isHexUpper c = true) : c ≠ '.' := by
  rintro rfl
  exact absurd h (by decide)

theorem takeWhile_append_eq {α} (p : α → Bool) (a b : List α) (x : α)
    (ha : ∀ c ∈ a, p c = true) (hx : p x = false) :
    (a ++ x :: b).takeWhile p = a ∧ (a ++ x :: b).dropWhile p = x :: b := by
  induction a with
  | nil =>
    simp only [List.nil_append]
    constructor
    · exact List.takeWhile_cons_of_neg (by simp [hx])
    · exact List.dropWhile_cons_of_neg (by simp [hx])
  | cons c cs ih =>
    have hc : p c = true := ha c (by simp)
    have ih' := ih (fun d hd => ha d (by simp [hd]))
    simp only [List.cons_append]
    constructor
    · rw [List.takeWhile_cons_of_pos hc, ih'.1]
    · rw [List.dropWhile_cons_of_pos hc, ih'.2]

theorem parsePayload_encPayload (p : JwtPayload) :
    parsePayload (encPayload p) = some p := by
  have hA : ∀ c ∈ strHexChars p.userObjectId.data,
      (fun c => c != 'x') c = true :=
    fun c hc => hexUpper_ne_sep (mem_strHexChars_hexUpper hc)
  have hB : ∀ c ∈ natHexChars p.iat, (fun c => c != 'x') c = true :=
    fun c hc => hexUpper_ne_sep (mem_natHexChars_hexUpper hc)
  have hx : (fun c => c != 'x') 'x' = false := by decide
  obtain ⟨t1, d1⟩ := takeWhile_append_eq (fun c => c != 'x')
    (strHexChars p.userObjectId.data)
    (natHexChars p.iat ++ 'x' :: natHexChars p.exp) 'x' hA hx
  obtain ⟨t2, d2⟩ := takeWhile_append_eq (fun c => c != 'x')
    (natHexChars p.iat) (natHexChars p.exp) 'x' hB hx
  simp only [parsePayload, encPayload, d1, t1, d2, t2,
    strUnhex_strHexChars, natUnhex_natHexChars]

theorem splitOnChar_ne_nil (sep : Char) (l : List Char) :
    splitOnChar sep l ≠ [] := by
  induction l with
  | nil => simp [splitOnChar]
  | cons c cs ih =>
    rw [splitOnChar]
    rcases hs : splitOnChar sep cs with _ | ⟨s, ss⟩
    · simp
    · by_cases hc : c = sep <;> simp [hc]

theorem splitOnChar_of_no_sep {sep : Char} {l : List Char}
    (h : ∀ c ∈ l, c ≠ sep) : splitOnChar sep l = [l] := by
  induction l with
  | nil => rfl
  | cons c cs ih =>
    have h1 : c ≠ sep := h c (by simp)
    rw [splitOnChar, ih (fun d hd => h d (by simp [hd]))]
    simp [h1]

theorem splitOnChar_append {sep : Char} {a : List Char} (b : List Char)
    (h : ∀ c ∈ a, c ≠ sep) :
    splitOnChar sep (a ++ sep :: b) = a :: splitOnChar sep b := by
  induction a with
  | nil =>
    rw [List.nil_append, splitOnChar]
    rcases hs : splitOnChar sep b with _ | ⟨s, ss⟩
    · exact absurd hs (splitOnChar_ne_nil sep b)
    · simp
  | cons c cs ih =>
    have h1 : c ≠ sep := h c (by simp)
    rw [List.cons_append, splitOnChar, ih (fun d hd => h d (by simp [hd]))]
    simp [h1]

theorem encPayload_wire (p : JwtPayload) :
    ∀ c ∈ encPayload p, isHexUpper c = true ∨ c = 'x' := by
  intro c hc
  simp only [encPayload, List.mem_append, List.mem_cons] at hc
  rcases hc with hc | rfl | hc
  · exact Or.inl (mem_strHexChars_hexUpper hc)
  · exact Or.inr rfl
  · rcases hc with hc | rfl | hc
    · exact Or.inl (mem_natHexChars_hexUpper hc)
    · exact Or.inr rfl
    · exact Or.inl (mem_natHexChars_hexUpper hc)

theorem sigChars_wire (secret : String) (input : List Char) :
    ∀ c ∈ sigChars secret input, isHexUpper c = true ∨ c = 'x' := by
  intro c hc
  simp only [sigChars, List.mem_append, List.mem_cons] at hc
  rcases hc with hc | rfl | hc
  · exact Or.inl (mem_strHexChars_hexUpper hc)
  · exact Or.inr rfl
  · exact Or.inl (mem_strHexChars_hexUpper hc)

theorem wire_ne_dot {c : Char} (h : isHexUpper c = true ∨ c = 'x') :
    c ≠ '.' := by
  rcases h with h | rfl
  · exact hexUpper_ne_dot h
  · decide

theorem splitOnChar_tokenChars (secret : String) (p : JwtPayload) :
    splitOnChar '.' (tokenChars secret p) =
      [headerChars, encPayload p,
       sigChars secret (headerChars ++ '.' :: encPayload p)] := by
  have hA : ∀ c ∈ headerChars, c ≠ '.' := by
    intro c hc
    exact hexUpper_ne_dot (mem_strHexChars_hexUpper hc)
  have hB : ∀ c ∈ encPayload p, c ≠ '.' :=
    fun c hc => wire_ne_dot (encPayload_wire p c hc)
  have hC : ∀ c ∈ sigChars secret (headerChars ++ '.' :: encPayload p),
      c ≠ '.' :=
    fun c hc => wire_ne_dot (sigChars_wire _ _ c hc)
  have e : tokenChars secret p = headerChars ++ '.' ::
      (encPayload p ++ '.' ::
        sigChars secret (headerChars ++ '.' :: encPayload p)) := by
    simp [tokenChars]
  rw [e, splitOnChar_append _ hA, splitOnChar_append _ hB,
    splitOnChar_of_no_sep hC]

theorem verify_signToken (secret : String) (now : Nat) (p : JwtPayload) :
    verifyAuthToken secret now (signToken secret p) =
      if now < p.exp then .ok p else .error .expired := by
  have hs : (signToken secret p).data = tokenChars secret p := rfl
  rw [verifyAuthToken]
  rw [hs, splitOnChar_tokenChars]
  simp [parsePayload_encPayload]

theorem sigChars_secret_inj {s1 s2 : String} {input : List Char}
    (h : sigChars s1 input = sigChars s2 input) : s1 = s2 := by
  have t1 := (takeWhile_append_eq (fun c => c != 'x') (strHexChars s1.data)
    (strHexChars input) 'x'
    (fun c hc => hexUpper_ne_sep (mem_strHexChars_hexUpper hc))
    (by decide)).1
  have t2 := (takeWhile_append_eq (fun c => c != 'x') (strHexChars s2.data)
    (strHexChars input) 'x'
    (fun c hc => hexUpper_ne_sep (mem_strHexChars_hexUpper hc))
    (by decide)).1
  have e : strHexChars s1.data = strHexChars s2.data := by
    have h' : sigChars s1 input = sigChars s2 input := h
    simp only [sigChars] at h'
    rw [← t1, ← t2, h']
  have := strHexChars_injective e
  cases s1
  cases s2
  exact congrArg String.mk this

/-! ## Claim theorems: token service -/

/-- C7: for every user identifier, a token generated now verifies
successfully now, the decoded payload embeds the identifier as the subject,
and the payload satisfies exp - iat = 43200 (the fixed 12-hour expiry). -/
theorem token_round_trip (secret : String) (now : Nat) (id : String) :
    verifyAuthToken secret now (generateAuthToken secret now id) =
      .ok ⟨id, now, now + 43200⟩ ∧
    (∀ p, verifyAuthToken secret now (generateAuthToken secret now id) =
        .ok p → p.userObjectId = id ∧ p.exp - p.iat = 43200) := by
  have h1 : verifyAuthToken secret now (generateAuthToken secret now id) =
      .ok ⟨id, now, now + 43200⟩ := by
    rw [generateAuthToken, verify_signToken]
    simp
  refine ⟨h1, ?_⟩
  intro p hp
  rw [h1] at hp
  obtain rfl := (Except.ok.inj hp).symm
  simp

/-- C8: verification fails for every token signed with a different secret,
for every structurally malformed token, and for every token past its
expiry. -/
theorem verify_failure_modes (secret secret' : String) (now : Nat)
    (p : JwtPayload) (t : String) :
    (secret' ≠ secret →
      verifyAuthToken secret now (signToken secret' p) =
        .error .invalidSignature) ∧
    (malformedToken t = true →
      verifyAuthToken secret now t = .error .malformed) ∧
    (p.exp ≤ now →
      verifyAuthToken secret now (signToken secret p) = .error .expired) := by
  refine ⟨?_, ?_, ?_⟩
  · intro hne
    have hs : (signToken secret' p).data = tokenChars secret' p := rfl
    rw [verifyAuthToken, hs, splitOnChar_tokenChars]
    have hsig : sigChars secret' (headerChars ++ '.' :: encPayload p) ≠
        sigChars secret (headerChars ++ '.' :: encPayload p) :=
      fun hsg => hne (sigChars_secret_inj hsg)
    simp [parsePayload_encPayload, hsig]
  · intro hm
    rw [malformedToken] at hm
    rw [verifyAuthToken]
    rcases hsplit : splitOnChar '.' t.data with _ | ⟨s1, l1⟩
    · rfl
    · rcases l1 with _ | ⟨s2, l2⟩
      · rfl
      · rcases l2 with _ | ⟨s3, l3⟩
        · rfl
        · rcases l3 with _ | ⟨s4, l4⟩
          · rw [hsplit] at hm
            simp only [Bool.or_eq_true, Bool.not_eq_eq_eq_not, Bool.not_true,
              beq_eq_false_iff_ne, ne_eq, Option.isNone_iff_eq_none] at hm
            rcases hm with hm | hm
            · simp [hm]
            · by_cases hh : s1 = headerChars
              · simp [hh, hm]
              · simp [hh]
          · rfl
  · intro hexp
    rw [verify_signToken, if_neg (by omega)]

theorem verify_failure_modes_witness :
    verifyAuthToken "a" 0 (signToken "b" ⟨"u", 0, 99⟩) =
        .error .invalidSignature ∧
      verifyAuthToken "a" 0 "zz" = .error .malformed ∧
      verifyAuthToken "a" 99 (signToken "a" ⟨"u", 0, 99⟩) =
        .error .expired :=
  ⟨(verify_failure_modes "a" "b" 0 ⟨"u", 0, 99⟩ "zz").1 (by decide),
   (verify_failure_modes "a" "b" 0 ⟨"u", 0, 99⟩ "zz").2.1 (by decide),
   (verify_failure_modes "a" "b" 99 ⟨"u", 0, 99⟩ "zz").2.2 (by decide)⟩

/-- C10: a generated token is a string of exactly three dot-separated
segments (header, payload, signature), and the payload segment decodes to a
record whose `userObjectId` field holds the subject identifier. -/
theorem token_wire_shape (secret : String) (now : Nat) (id : String) :
    (splitOnChar '.' (generateAuthToken secret now id).data).length = 3 ∧
    ∃ pl, splitOnChar '.' (generateAuthToken secret now id).data =
        [headerChars, pl, sigChars secret (headerChars ++ '.' :: pl)] ∧
      parsePayload pl = some ⟨id, now, now + 43200⟩ ∧
      (parsePayload pl).map (fun q => q.userObjectId) = some id := by
  have hs : (generateAuthToken secret now id).data =
      tokenChars secret ⟨id, now, now + 43200⟩ := rfl
  rw [hs, splitOnChar_tokenChars]
  refine ⟨rfl, encPayload ⟨id, now, now + 43200⟩, rfl, ?_, ?_⟩
  · exact parsePayload_encPayload _
  · rw [parsePayload_encPayload]
    rfl

/-! ## Lemmas about the middleware -/

theorem stripBearer_bearer (s : String) : stripBearer ("Bearer " ++ s) = s := by
  have e : ("Bearer " ++ s).data = "Bearer ".data ++ s.data :=
    String.data_append _ _
  have ht : ("Bearer " ++ s).data.take 7 = "Bearer ".data := by
    rw [e]; exact List.take_left' rfl
  have hd : ("Bearer " ++ s).data.drop 7 = s.data := by
    rw [e]; exact List.drop_left' rfl
  rw [stripBearer, if_pos ht, hd]

theorem stripBearer_signToken (secret : String) (p : JwtPayload) :
    stripBearer (signToken secret p) = signToken secret p := by
  have e : (signToken secret p).data = headerChars ++
      ('.' :: (encPayload p ++
        '.' :: sigChars secret (headerChars ++ '.' :: encPayload p))) := by
    simp [signToken, tokenChars]
  have h7 : (signToken secret p).data.take 7 = headerChars.take 7 := by
    rw [e]; exact List.take_append_of_le_length (by decide)
  have hne : (signToken secret p).data.take 7 ≠ "Bearer ".data := by
    rw [h7]; decide
  rw [stripBearer, if_neg hne]

theorem foldLatest_some {l : List Survey} :
    ∀ {acc : Option Survey} {s : Survey},
      l.foldl (fun acc s =>
        match acc with
        | none => some s
        | some t => if t.createdAt < s.createdAt then some s else acc)
        acc = some s →
      (acc = some s ∨ s ∈ l) ∧ (∀ t ∈ l, t.createdAt ≤ s.createdAt) ∧
      (∀ a, acc = some a → a.createdAt ≤ s.createdAt) := by
  induction l with
  | nil =>
    intro acc s h
    simp only [List.foldl_nil] at h
    exact ⟨Or.inl h, by simp, fun a ha => by
      rw [h] at ha; cases Option.some.inj ha; exact le_refl _⟩
  | cons x l ih =>
    intro acc s h
    rw [List.foldl_cons] at h
    obtain ⟨hm, hb, hacc⟩ := ih h
    have hx : x.createdAt ≤ s.createdAt := by
      rcases acc with _ | t
      · exact hacc x rfl
      · by_cases hlt : t.createdAt < x.createdAt
        · exact hacc x (by simp [hlt])
        · have := hacc t (by simp [hlt])
          omega
    refine ⟨?_, ?_, ?_⟩
    · rcases acc with _ | t
      · rcases hm with hm | hm
        · simp only [Option.some.injEq] at hm
          subst hm
          exact Or.inr (by simp)
        · exact Or.inr (List.mem_cons_of_mem x hm)
      · rcases hm with hm | hm
        · by_cases hlt : t.createdAt < x.createdAt
          · simp only [hlt, if_true, Option.some.injEq] at hm
            subst hm
            exact Or.inr (by simp)
          · simp only [hlt, if_false, Option.some.injEq] at hm
            exact Or.inl (by rw [hm])
        · exact Or.inr (List.mem_cons_of_mem x hm)
    · intro t ht
      rcases List.mem_cons.mp ht with rfl | ht
      · exact hx
      · exact hb t ht
    · intro a ha
      subst ha
      by_cases hlt : a.createdAt < x.createdAt
      · have := hacc x (by simp [hlt])
        omega
      · exact hacc a (by simp [hlt])

theorem foldLatest_eq_none {l : List Survey} :
    ∀ {acc : Option Survey},
      l.foldl (fun acc s =>
        match acc with
        | none => some s
        | some t => if t.createdAt < s.createdAt then some s else acc)
        acc = none →
      acc = none ∧ l = [] := by
  induction l with
  | nil => intro acc h; exact ⟨h, rfl⟩
  | cons x l ih =>
    intro acc h
    rw [List.foldl_cons] at h
    obtain ⟨hstep, -⟩ := ih h
    exfalso
    rcases acc with _ | t
    · simp at hstep
    · by_cases hlt : t.createdAt < x.createdAt <;> simp [hlt] at hstep

theorem latestSurveyFor_none_iff (ss : List Survey) (uid : String) :
    latestSurveyFor ss uid = none ↔ ∀ t ∈ ss, t.createdBy ≠ uid := by
  constructor
  · intro h t ht hc
    rw [latestSurveyFor] at h
    obtain ⟨-, hnil⟩ := foldLatest_eq_none h
    have : t ∈ ss.filter (fun s => s.createdBy == uid) :=
      List.mem_filter.mpr ⟨ht, by simp [hc]⟩
    rw [hnil] at this
    simp at this
  · intro h
    have hf : ss.filter (fun s => s.createdBy == uid) = [] := by
      rw [List.filter_eq_nil_iff]
      intro t ht
      simp [h t ht]
    rw [latestSurveyFor, hf]
    rfl

theorem latestSurveyFor_some {ss : List Survey} {uid : String} {s : Survey}
    (h : latestSurveyFor ss uid = some s) :
    s ∈ ss ∧ s.createdBy = uid ∧
      ∀ t ∈ ss, t.createdBy = uid → t.createdAt ≤ s.createdAt := by
  rw [latestSurveyFor] at h
  obtain ⟨hm, hb, -⟩ := foldLatest_some h
  rcases hm with hm | hm
  · exact absurd hm (by simp)
  · have hmem := List.mem_filter.mp hm
    refine ⟨hmem.1, by simpa using hmem.2, ?_⟩
    intro t ht hc
    exact hb t (List.mem_filter.mpr ⟨ht, by simp [hc]⟩)

/-! ## Claim theorems: authorization resolver -/

/-- C2: every request yields exactly one outcome — success (next stage
invoked) or one of three terminal failures distinguishable by status code:
401 for a missing or unverifiable token, 400 for a valid token whose
account is not found, 403 for a PENDING or REJECTED account — and every
403 carries the one fixed message, so PENDING and REJECTED are
indistinguishable by message. -/
theorem auth_outcomes (env : AuthEnv) (req : Request) :
    ((∃ m, (auth env req).response = some (401, m)) ↔
      tokenRejected env req) ∧
    ((∃ m, (auth env req).response = some (400, m)) ↔
      userMissing env req) ∧
    ((∃ m, (auth env req).response = some (403, m)) ↔
      (tokenResolvesTo env req .PENDING ∨
        tokenResolvesTo env req .REJECTED)) ∧
    (∀ st m, (auth env req).response = some (st, m) →
      (st = 401 ∨ st = 400 ∨ st = 403) ∧
      (auth env req).nextCalled = false ∧
      (auth env req).attached = none) ∧
    ((auth env req).response = none → (auth env req).nextCalled = true) ∧
    (∀ m, (auth env req).response = some (403, m) →
      m = "User account not approved yet. Please contact your admin.") := by
  rcases hA : req.authorization with _ | hdr
  · simp [auth, hA, tokenRejected, userMissing, tokenResolvesTo]
  · rcases hV : verifyAuthToken env.secret env.now (stripBearer hdr)
      with e | payload
    · simp [auth, hA, hV, tokenRejected, userMissing, tokenResolvesTo]
    · rcases hU : findById env.users payload.userObjectId with _ | u
      · simp [auth, hA, hV, hU, tokenRejected, userMissing, tokenResolvesTo]
      · rcases hP : u.approvalStatus with _ | _ | _ <;>
          simp [auth, hA, hV, hU, hP, tokenRejected, userMissing,
            tokenResolvesTo]

set_option maxRecDepth 8000 in
theorem auth_outcomes_witness :
    (∃ m, (auth wEnv ⟨none⟩).response = some (401, m)) ∧
    (∃ m, (auth wEnv ⟨some (generateAuthToken "k" 0 "paula")⟩).response =
      some (403, m)) ∧
    (∃ m, (auth wEnv ⟨some (generateAuthToken "k" 0 "rita")⟩).response =
      some (403, m)) ∧
    (∀ m, (auth wEnv ⟨some (generateAuthToken "k" 0 "paula")⟩).response =
        some (403, m) →
      m = "User account not approved yet. Please contact your admin.") ∧
    (∀ m, (auth wEnv ⟨some (generateAuthToken "k" 0 "rita")⟩).response =
        some (403, m) →
      m = "User account not approved yet. Please contact your admin.") :=
  ⟨(auth_outcomes wEnv ⟨none⟩).1.mpr (Or.inl rfl),
   (auth_outcomes wEnv ⟨some (generateAuthToken "k" 0 "paula")⟩).2.2.1.mpr
     (Or.inl ⟨generateAuthToken "k" 0 "paula", ⟨"paula", 0, 43200⟩, paula,
       rfl, rfl, rfl, rfl⟩),
   (auth_outcomes wEnv ⟨some (generateAuthToken "k" 0 "rita")⟩).2.2.1.mpr
     (Or.inr ⟨generateAuthToken "k" 0 "rita", ⟨"rita", 0, 43200⟩, rita,
       rfl, rfl, rfl, rfl⟩),
   (auth_outcomes wEnv ⟨some (generateAuthToken "k" 0 "paula")⟩).2.2.2.2.2,
   (auth_outcomes wEnv ⟨some (generateAuthToken "k" 0 "rita")⟩).2.2.2.2.2⟩

/-- C3: for a request by an APPROVED user, the middleware attaches a
context and passes control without sending a response; the context's
effective location is the location of the most recently created survey
associated with the user when one exists, and the user's home location
otherwise. -/
theorem location_escalation (env : AuthEnv) (req : Request) (hdr : String)
    (payload : JwtPayload) (u : User)
    (hA : req.authorization = some hdr)
    (hV : verifyAuthToken env.secret env.now (stripBearer hdr) =
      .ok payload)
    (hU : findById env.users payload.userObjectId = some u)
    (hS : u.approvalStatus = .APPROVED) :
    (auth env req).response = none ∧ (auth env req).nextCalled = true ∧
      ((∃ s, latestSurveyFor env.surveys u.id = some s ∧ s ∈ env.surveys ∧
          s.createdBy = u.id ∧
          (∀ t ∈ env.surveys, t.createdBy = u.id →
            t.createdAt ≤ s.createdAt) ∧
          (auth env req).attached =
            some (mkContext u s.locationObjectId)) ∨
        (latestSurveyFor env.surveys u.id = none ∧
          (∀ t ∈ env.surveys, t.createdBy ≠ u.id) ∧
          (auth env req).attached =
            some (mkContext u u.locationObjectId))) := by
  have e : auth env req =
      ⟨none, some (mkContext u
        (match latestSurveyFor env.surveys u.id with
         | some s => s.locationObjectId
         | none => u.locationObjectId)), true⟩ := by
    simp [auth, hA, hV, hU, hS]
  rw [e]
  refine ⟨rfl, rfl, ?_⟩
  rcases hL : latestSurveyFor env.surveys u.id with _ | s
  · exact Or.inr ⟨rfl, (latestSurveyFor_none_iff _ _).mp hL, rfl⟩
  · obtain ⟨hmem, hby, hmax⟩ := latestSurveyFor_some hL
    exact Or.inl ⟨s, rfl, hmem, hby, hmax, rfl⟩

set_option maxRecDepth 8000 in
theorem location_escalation_witness :
    ((auth wEnv wReq).response = none ∧
      (auth wEnv wReq).nextCalled = true ∧
      ((∃ s, latestSurveyFor wEnv.surveys alice.id = some s ∧
          s ∈ wEnv.surveys ∧ s.createdBy = alice.id ∧
          (∀ t ∈ wEnv.surveys, t.createdBy = alice.id →
            t.createdAt ≤ s.createdAt) ∧
          (auth wEnv wReq).attached =
            some (mkContext alice s.locationObjectId)) ∨
        (latestSurveyFor wEnv.surveys alice.id = none ∧
          (∀ t ∈ wEnv.surveys, t.createdBy ≠ alice.id) ∧
          (auth wEnv wReq).attached =
            some (mkContext alice alice.locationObjectId)))) :=
  location_escalation wEnv wReq (generateAuthToken "k" 0 "alice")
    wPayload alice rfl rfl rfl rfl

/-- C9: for a valid credential, the middleware resolves the request
identically whether the authorization header carries the credential with
or without the Bearer prefix. -/
theorem bearer_equivalence (env : AuthEnv) (p : JwtPayload) :
    auth env ⟨some ("Bearer " ++ signToken env.secret p)⟩ =
      auth env ⟨some (signToken env.secret p)⟩ := by
  simp only [auth, stripBearer_bearer, stripBearer_signToken]

end RDS
